import Mathlib

/-!
# Verification of the win-way WSL Wayland proxy (wsl-proxy.py)

Shallow embedding of the client-facing Wayland wire-protocol state machine of
`src/wsl-proxy.py`.  Conventions used throughout:

* Byte strings are `List Nat` (every byte produced by the embedded code is
  `< 256` by construction; clients may in principle only deliver bytes
  `< 256`, and no numeric argument of any theorem depends on larger values).
* Python `str` values travel as their UTF-8 byte sequences (`List Nat`);
  all interface-name strings in the program are ASCII.  The UTF-8
  decode/encode steps of the source are the identity on such byte lists,
  except for the `.strip(chr(0))` in `read_string`, modelled by `stripNulls`.
* Python dicts are insertion-ordered association lists (`List (Nat × α)`);
  `dictSet` overwrites in place or appends, `dictDel` removes, mirroring
  `d[k] = v` and `del d[k]`.
* Machine integers: `struct.pack(chr(60) ++ "I", v)` succeeds iff
  `0 ≤ v < 2^32` and `struct.unpack` of 4 bytes is `getLE32`; signed reads
  (`"<i"`) are `asI32`.  A `struct` call that would raise is modelled by
  `Option.none` of the enclosing operation (handlers that the source wraps
  in try/except instead keep the partial effects, exactly as the source
  does: see `handleSurface` and `sendPixl`).
* Wall-clock time `int(time.time()*1000)` and the result of `mmap.mmap`
  are environment inputs (`Env`).
-/

/-- Padding to the next 4-byte boundary, `(4 - (n % 4)) % 4` in the source. -/
def pad4 (n : Nat) : Nat := (4 - n % 4) % 4

/-- The 4 little-endian bytes of `n % 2^32`: `struct.pack("<I", ...)`. -/
def le32 (n : Nat) : List Nat := [n % 256, n / 256 % 256, n / 65536 % 256, n / 16777216 % 256]

/-- Byte of `d` at index `i` (0 when out of range; all readers guard the range). -/
def byteAt (d : List Nat) (i : Nat) : Nat := d.getD i 0

/-- `struct.unpack("<I", d[off:off+4])`, the little-endian u32 at `off`. -/
def getLE32 (d : List Nat) (off : Nat) : Nat :=
  byteAt d off + 256 * byteAt d (off + 1) + 65536 * byteAt d (off + 2) + 16777216 * byteAt d (off + 3)

/-- Two's-complement reinterpretation of a u32, `struct.unpack("<i", ...)`. -/
def asI32 (u : Nat) : Int := if u < 2147483648 then (u : Int) else (u : Int) - 4294967296

/-- Python `int & 0xFFFFFFFF` on a possibly negative int. -/
def toU32 (i : Int) : Nat := (i % 4294967296).toNat

/-- Clamp of one Python slice index to `[0, len]` (negative indices count from the end). -/
def pyIdx (len : Nat) (i : Int) : Nat := if i < 0 then ((len : Int) + i).toNat else min i.toNat len

/-- Python slice `l[a:b]` (never raises; empty when the clamped bounds cross). -/
def pySlice (l : List Nat) (a b : Int) : List Nat :=
  (l.take (pyIdx l.length b)).drop (pyIdx l.length a)

/-- Python `bytes.strip(chr(0))`: drop leading and trailing zero bytes. -/
def stripNulls (l : List Nat) : List Nat :=
  ((l.dropWhile (fun b => b == 0)).reverse.dropWhile (fun b => b == 0)).reverse

/-- UTF-8 bytes of an ASCII string literal. -/
def asciiBytes (s : String) : List Nat := s.data.map Char.toNat

/-- A typed Wayland wire argument as passed to `encode_message`.
Python dispatches on `isinstance`: `int` (covering both uint and int
arguments), `str` (as UTF-8 bytes here) and `bytes` (array payloads). -/
inductive WireArg where
  | auint (n : Nat)
  | aint (i : Int)
  | astr (s : List Nat)
  | abytes (b : List Nat)
deriving DecidableEq

/-- One argument's bytes inside `encode_message`'s payload:
ints are masked with `& 0xFFFFFFFF` and packed `"<I"`; strings get a
u32 length (including the appended NUL), the bytes, the NUL, and zero
padding to 4 bytes; `bytes` arguments are appended verbatim (no length
prefix, no padding).  `none` models a raised `struct.error`
(string length out of u32 range). -/
def encodeArg : WireArg → Option (List Nat)
  | .auint n => some (le32 (n % 4294967296))
  | .aint i => some (le32 (toU32 i))
  | .astr s =>
    if s.length + 1 < 4294967296 then
      some (le32 (s.length + 1) ++ s ++ [0] ++ List.replicate (pad4 (s.length + 1)) 0)
    else none
  | .abytes b => some b

/-- `WaylandClient.encode_message`: header `(object_id, (size << 16) | (opcode & 0xFFFF))`
packed `"<II"` followed by the payload.  `none` models a raised `struct.error`
(`object_id` not a u32, or `size ≥ 2^16` making the packed word overflow). -/
def encodeMessage (oid opcode : Nat) (args : List WireArg) : Option (List Nat) :=
  match args.mapM encodeArg with
  | none => none
  | some pieces =>
    let payload := pieces.flatten
    let size := 8 + payload.length
    if oid < 4294967296 ∧ size < 65536 then
      some (le32 oid ++ le32 (size * 65536 + opcode % 65536) ++ payload)
    else none

/-- `WaylandClient.read_uint` (raises, i.e. `none`, when fewer than 4 bytes remain). -/
def readUint (d : List Nat) (off : Nat) : Option (Nat × Nat) :=
  if off + 4 ≤ d.length then some (getLE32 d off, off + 4) else none

/-- `WaylandClient.read_int`. -/
def readInt (d : List Nat) (off : Nat) : Option (Int × Nat) :=
  if off + 4 ≤ d.length then some (asI32 (getLE32 d off), off + 4) else none

/-- `WaylandClient.read_string`: u32 length, then `data[offset:offset+length-1]`
decoded and stripped of NULs, advancing by `length` plus padding. -/
def readString (d : List Nat) (off : Nat) : Option (List Nat × Nat) :=
  match readUint d off with
  | none => none
  | some (len, off2) =>
    some (stripNulls (pySlice d (off2 : Int) ((off2 : Int) + (len : Int) - 1)), off2 + len + pad4 len)

/-- `WaylandClient.decode_header`: `(object_id, opcode, size, rest)`;
`none` is the `len(data) < HEADER_SIZE` early return. -/
def decodeHeader (d : List Nat) : Option (Nat × Nat × Nat × List Nat) :=
  if d.length < 8 then none
  else some (getLE32 d 0, getLE32 d 4 % 65536, getLE32 d 4 / 65536, d.drop 8)

/-- Kinds of arguments the source can read back (`read_uint`, `read_int`,
`read_string`; the source has no array reader). -/
inductive ArgKind where
  | uint
  | int
  | str
deriving DecidableEq

/-- Read one typed argument with the source's reader for that kind. -/
def readArg : ArgKind → List Nat → Nat → Option (WireArg × Nat)
  | .uint, d, off =>
    match readUint d off with
    | some (n, o) => some (.auint n, o)
    | none => none
  | .int, d, off =>
    match readInt d off with
    | some (i, o) => some (.aint i, o)
    | none => none
  | .str, d, off =>
    match readString d off with
    | some (s, o) => some (.astr s, o)
    | none => none

/-- Read a sequence of typed arguments in declaration order, as the handlers do. -/
def readArgs : List ArgKind → List Nat → Nat → Option (List WireArg × Nat)
  | [], _, off => some ([], off)
  | k :: ks, d, off =>
    match readArg k d off with
    | none => none
    | some (a, off2) =>
      match readArgs ks d off2 with
      | none => none
      | some (rest, off3) => some (a :: rest, off3)

/-- Decode one whole message the way `handle_message` does: header via
`decode_header`, the `size < 8` / truncation check, payload
`data[8:size]`, then the typed readers. -/
def decodeMessage (ks : List ArgKind) (d : List Nat) : Option (Nat × Nat × List WireArg) :=
  match decodeHeader d with
  | none => none
  | some (oid, opcode, size, _) =>
    if size < 8 ∨ d.length < size then none
    else
      match readArgs ks ((d.take size).drop 8) 0 with
      | none => none
      | some (args, _) => some (oid, opcode, args)

/-- The wire kind of an argument value; arrays have no reader in the source. -/
def argKind : WireArg → Option ArgKind
  | .auint _ => some .uint
  | .aint _ => some .int
  | .astr _ => some .str
  | .abytes _ => none

/-- Validity of one argument for an exact round trip: uints fit a u32,
ints fit an i32, strings have no leading/trailing NUL byte. -/
def argWF : WireArg → Prop
  | .auint n => n < 4294967296
  | .aint i => -2147483648 ≤ i ∧ i < 2147483648
  | .astr s => stripNulls s = s
  | .abytes _ => True

instance (a : WireArg) : Decidable (argWF a) :=
  match a with
  | .auint n => inferInstanceAs (Decidable (n < 4294967296))
  | .aint i => inferInstanceAs (Decidable (-2147483648 ≤ i ∧ i < 2147483648))
  | .astr s => inferInstanceAs (Decidable (stripNulls s = s))
  | .abytes _ => inferInstanceAs (Decidable True)

/-! ## Per-connection data model (`WaylandClient.__init__`) -/

def iWlDisplay : List Nat := asciiBytes ("wl_display")

def iWlRegistry : List Nat := asciiBytes ("wl_registry")

def iWlCompositor : List Nat := asciiBytes ("wl_compositor")

def iWlShm : List Nat := asciiBytes ("wl_shm")

def iWlShmPool : List Nat := asciiBytes ("wl_shm_pool")

def iWlBuffer : List Nat := asciiBytes ("wl_buffer")

def iWlSurface : List Nat := asciiBytes ("wl_surface")

def iXdgWmBase : List Nat := asciiBytes ("xdg_wm_base")

def iXdgSurface : List Nat := asciiBytes ("xdg_surface")

def iXdgToplevel : List Nat := asciiBytes ("xdg_toplevel")

def iWlSeat : List Nat := asciiBytes ("wl_seat")

def iWlOutput : List Nat := asciiBytes ("wl_output")

def iWlPointer : List Nat := asciiBytes ("wl_pointer")

def iWlKeyboard : List Nat := asciiBytes ("wl_keyboard")

def iWlCallback : List Nat := asciiBytes ("wl_callback")

def iWlRegion : List Nat := asciiBytes ("wl_region")

def iWlSubsurface : List Nat := asciiBytes ("wl_subsurface")

def iWlSubcompositor : List Nat := asciiBytes ("wl_subcompositor")

def iWlDataDeviceManager : List Nat := asciiBytes ("wl_data_device_manager")

def iWlDataDevice : List Nat := asciiBytes ("wl_data_device")

def iWlDataSource : List Nat := asciiBytes ("wl_data_source")

/-- Insertion-ordered dict update `d[k] = v`: overwrite in place, else append. -/
def dictSet {α : Type} (d : List (Nat × α)) (k : Nat) (v : α) : List (Nat × α) :=
  if (List.lookup k d).isSome then d.map (fun p => if p.1 = k then (k, v) else p)
  else d ++ [(k, v)]

/-- Dict removal `del d[k]`. -/
def dictDel {α : Type} (d : List (Nat × α)) (k : Nat) : List (Nat × α) :=
  d.filter (fun p => p.1 != k)

/-- `self.buffers[bid] = (pool_id, offset, w, h, stride, fmt)`:
offset/w/h/stride are read with `read_int` (signed), fmt with `read_uint`. -/
structure BufferMeta where
  pool : Nat
  off : Int
  w : Int
  h : Int
  stride : Int
  fmt : Nat
deriving DecidableEq

/-- `self.shm_pools[pid] = (fd, mm, size)`; `mm` is the mapped view's
contents (`none` when `mmap` failed). -/
structure PoolEntry where
  fd : Int
  mm : Option (List Nat)
  size : Nat
deriving DecidableEq

/-- The per-connection state of `WaylandClient` (socket and timestamp omitted:
no handler reads them). -/
structure ClientState where
  objects : List (Nat × (List Nat × Nat)) := [(1, (iWlDisplay, 1))]
  surfaces : List (Nat × Option Nat) := []
  buffers : List (Nat × BufferMeta) := []
  shmPools : List (Nat × PoolEntry) := []
  serial : Nat := 0
deriving DecidableEq

/-- The connection state right after `__init__`. -/
def initState : ClientState := {}

/-- Environment inputs: the millisecond clock `int(time.time()*1000)` and the
result of `mmap.mmap(fd, size, ...)` (`none` = the mmap call raised). -/
structure Env where
  now : Nat := 0
  mmapRes : Int → Nat → Option (List Nat) := fun _ _ => none

/-- `WaylandClient.next_serial`. -/
def nextSerial (st : ClientState) : Nat × ClientState :=
  (st.serial + 1, { st with serial := st.serial + 1 })

/-- The fixed advertised globals list `GLOBALS` of the source. -/
def GLOBALS : List (Nat × List Nat × Nat) :=
  [(1, asciiBytes ("wl_compositor"), 4),
   (2, asciiBytes ("wl_subcompositor"), 1),
   (3, asciiBytes ("wl_shm"), 1),
   (4, asciiBytes ("xdg_wm_base"), 1),
   (5, asciiBytes ("wl_seat"), 5),
   (6, asciiBytes ("wl_output"), 3),
   (7, asciiBytes ("wl_data_device_manager"), 3)]

/-- Result of one handler invocation: the new state, bytes the handler sent
to the client immediately (`self.send` inside `try_focus`), the responses it
returned (flushed by `handle_message` after the dispatch loop), and bytes it
wrote to the host channel (`send_pixl`). -/
structure HandlerOut where
  st : ClientState
  sent : List (List Nat) := []
  res : List (List Nat) := []
  host : List Nat := []
deriving DecidableEq

/-- Loop body of `WaylandClient.try_focus` over a snapshot of the object
table; `none` models an uncaught exception (unreachable for states built by
the handlers, since every recorded object id is a u32). -/
def tryFocusGo (sid : Nat) : List (Nat × (List Nat × Nat)) → ClientState → Option (ClientState × List (List Nat))
  | [], st => some (st, [])
  | (k, (iface, _)) :: rest, st =>
    if iface = iWlKeyboard then
      match nextSerial st with
      | (ser, st2) =>
        match encodeMessage k 4 [.auint ser, .auint sid, .abytes []] with
        | none => none
        | some m =>
          match tryFocusGo sid rest st2 with
          | none => none
          | some (st3, ms) => some (st3, m :: ms)
    else if iface = iWlPointer then
      match nextSerial st with
      | (ser, st2) =>
        match encodeMessage k 4 [.auint ser, .auint sid, .auint 0, .auint 0] with
        | none => none
        | some m =>
          match tryFocusGo sid rest st2 with
          | none => none
          | some (st3, ms) => some (st3, m :: ms)
    else tryFocusGo sid rest st

/-- `WaylandClient.try_focus`: `sid = next(iter(self.surfaces), None)`;
`if not sid: return` covers both a missing and a zero surface id. -/
def tryFocus (st : ClientState) : Option (ClientState × List (List Nat)) :=
  match st.surfaces.head? with
  | none => some (st, [])
  | some (sid, _) => if sid = 0 then some (st, []) else tryFocusGo sid st.objects st

/-- `WaylandClient.handle_display` (sync and get_registry). -/
def handleDisplay (env : Env) (st : ClientState) (opcode : Nat) (pay : List Nat) : Option HandlerOut := do
  if opcode = 0 then
    let (cb, _) ← readUint pay 0
    let objs := dictSet st.objects cb (iWlCallback, 1)
    let m ← encodeMessage cb 0 [.auint (env.now % 4294967296)]
    some { st := { st with objects := dictDel objs cb }, res := [m] }
  else if opcode = 1 then
    let (rid, _) ← readUint pay 0
    let st2 := { st with objects := dictSet st.objects rid (iWlRegistry, 1) }
    let msgs ← GLOBALS.mapM (fun g => encodeMessage rid 0 [.auint g.1, .astr g.2.1, .auint g.2.2])
    some { st := st2, res := msgs }
  else some { st := st }

/-- `WaylandClient.handle_registry` (bind, with the per-interface
advertisement events). -/
def handleRegistry (st : ClientState) (opcode : Nat) (pay : List Nat) : Option HandlerOut := do
  if opcode = 0 then
    let (_, p1) ← readUint pay 0
    let (iface, p2) ← readString pay p1
    let (ver, p3) ← readUint pay p2
    let (nid, _) ← readUint pay p3
    let st2 := { st with objects := dictSet st.objects nid (iface, ver) }
    if iface = iWlShm then
      let m1 ← encodeMessage nid 0 [.auint 0]
      let m2 ← encodeMessage nid 0 [.auint 1]
      some { st := st2, res := [m1, m2] }
    else if iface = iWlSeat then
      let m1 ← encodeMessage nid 0 [.auint 3]
      let m2 ← encodeMessage nid 1 [.astr (asciiBytes ("win-way-seat"))]
      some { st := st2, res := [m1, m2] }
    else if iface = iWlOutput then
      let m1 ← encodeMessage nid 0 [.auint 0, .auint 0, .auint 1920, .auint 1080, .auint 0,
        .astr (asciiBytes ("WinWay")), .astr (asciiBytes ("Monitor")), .auint 0]
      let m2 ← encodeMessage nid 1 [.auint 3, .auint 1920, .auint 1080, .auint 60000]
      if ver ≥ 2 then
        let m3 ← encodeMessage nid 3 [.auint 1]
        let m4 ← encodeMessage nid 2 []
        some { st := st2, res := [m1, m2, m3, m4] }
      else some { st := st2, res := [m1, m2] }
    else some { st := st2 }
  else some { st := st }

/-- `WaylandClient.handle_compositor`. -/
def handleCompositor (st : ClientState) (opcode : Nat) (pay : List Nat) : Option HandlerOut := do
  if opcode = 0 then
    let (sid, _) ← readUint pay 0
    let st2 := { st with objects := dictSet st.objects sid (iWlSurface, 4) }
    let (st3, sent) ← tryFocus st2
    some { st := st3, sent := sent }
  else if opcode = 1 then
    let (rid, _) ← readUint pay 0
    some { st := { st with objects := dictSet st.objects rid (iWlRegion, 1) } }
  else some { st := st }

/-- `WaylandClient.handle_subcompositor`. -/
def handleSubcompositor (st : ClientState) (oid opcode : Nat) (pay : List Nat) : Option HandlerOut := do
  if opcode = 0 then
    some { st := { st with objects := dictDel st.objects oid } }
  else if opcode = 1 then
    let (subId, p1) ← readUint pay 0
    let (_, p2) ← readUint pay p1
    let (_, _) ← readUint pay p2
    some { st := { st with objects := dictSet st.objects subId (iWlSubsurface, 1) } }
  else some { st := st }

/-- `WaylandClient.handle_region`. -/
def handleRegion (st : ClientState) (oid opcode : Nat) : Option HandlerOut :=
  if opcode = 0 then some { st := { st with objects := dictDel st.objects oid } }
  else some { st := st }

/-- `WaylandClient.handle_data_device_manager`. -/
def handleDataDeviceManager (st : ClientState) (opcode : Nat) (pay : List Nat) : Option HandlerOut := do
  if opcode = 0 then
    let (nid, p1) ← readUint pay 0
    let (_, _) ← readUint pay p1
    some { st := { st with objects := dictSet st.objects nid (iWlDataDevice, 3) } }
  else if opcode = 1 then
    let (nid, _) ← readUint pay 0
    some { st := { st with objects := dictSet st.objects nid (iWlDataSource, 3) } }
  else some { st := st }

/-- `WaylandClient.handle_shm` (create_pool): pops the first queued ancillary
fd when one is present, maps it via the environment (a failed mmap is
retained with a null mapping), and registers the pool id; when the fd queue
is empty no pool-registry entry is made but the object is still registered. -/
def handleShm (env : Env) (st : ClientState) (opcode : Nat) (pay : List Nat) (fds : List Int) :
    Option (HandlerOut × List Int) := do
  if opcode = 0 then
    let (pid, p1) ← readUint pay 0
    let (size, _) ← readUint pay p1
    match fds with
    | fd :: fdrest =>
      let entry : PoolEntry :=
        match env.mmapRes fd size with
        | some mem => { fd := fd, mm := some mem, size := size }
        | none => { fd := fd, mm := none, size := size }
      some ({ st := { st with shmPools := dictSet st.shmPools pid entry,
                              objects := dictSet st.objects pid (iWlShmPool, 1) } }, fdrest)
    | [] =>
      some ({ st := { st with objects := dictSet st.objects pid (iWlShmPool, 1) } }, [])
  else some ({ st := st }, fds)

/-- `WaylandClient.handle_shm_pool` (create_buffer, destroy).  Destroy also
unmaps the view and closes the fd; state-wise that is removal from the pool
registry. -/
def handleShmPool (st : ClientState) (oid opcode : Nat) (pay : List Nat) : Option HandlerOut := do
  if opcode = 0 then
    let (bid, p1) ← readUint pay 0
    let (off, p2) ← readInt pay p1
    let (w, p3) ← readInt pay p2
    let (h, p4) ← readInt pay p3
    let (stride, p5) ← readInt pay p4
    let (fmt, _) ← readUint pay p5
    some { st := { st with
      objects := dictSet st.objects bid (iWlBuffer, 1),
      buffers := dictSet st.buffers bid
        { pool := oid, off := off, w := w, h := h, stride := stride, fmt := fmt } } }
  else if opcode = 1 then
    some { st := { st with shmPools := dictDel st.shmPools oid } }
  else some { st := st }

/-- `WaylandClient.handle_buffer`. -/
def handleBuffer (st : ClientState) (oid opcode : Nat) : Option HandlerOut :=
  if opcode = 0 then
    some { st := { st with objects := dictDel st.objects oid, buffers := dictDel st.buffers oid } }
  else some { st := st }

/-- The PIXL record header `struct.pack("<4sIIIII", b"PIXL", sid, w, h, fmt, total)`;
`none` models the raised `struct.error` when a field is out of u32 range
(caught by `send_pixl`'s try/except before anything is written). -/
def pixlHeader (sid : Nat) (w h : Int) (fmt : Nat) (total : Int) : Option (List Nat) :=
  if sid < 4294967296 ∧ 0 ≤ w ∧ w < 4294967296 ∧ 0 ≤ h ∧ h < 4294967296 ∧
     fmt < 4294967296 ∧ 0 ≤ total ∧ total < 4294967296 then
    some (asciiBytes ("PIXL") ++ le32 sid ++ le32 w.toNat ++ le32 h.toNat ++
      le32 fmt ++ le32 total.toNat)
  else none

/-- `mm.seek(off + y*stride); mm.read(w*4)`: one row's bytes from the mapping. -/
def rowSlice (mem : List Nat) (offY row : Int) : List Nat :=
  (mem.drop offY.toNat).take row.toNat

/-- `WaylandProxy.send_pixl`, returning the bytes written to the host channel.
Mirrors the source exactly: missing or unmapped pool returns nothing;
the guard `off + stride*h > sz` returns before anything is written; the row
loop breaks at the first row `y` with `off + y*stride + row > sz`; the inner
`takeWhile (0 ≤ off_y)` models the `mm.seek` ValueError aborting the
remaining writes (caught by the try/except, keeping what was written). -/
def sendPixl (sid : Nat) (buf : BufferMeta) (pools : List (Nat × PoolEntry)) : List Nat :=
  match List.lookup buf.pool pools with
  | none => []
  | some e =>
    match e.mm with
    | none => []
    | some mem =>
      let row : Int := buf.w * 4
      if buf.off + buf.stride * buf.h > (e.size : Int) then []
      else
        let fit := (List.range buf.h.toNat).takeWhile
          (fun (y : Nat) => decide (buf.off + (y : Int) * buf.stride + row ≤ (e.size : Int)))
        let total : Int := (fit.length : Int) * row
        match pixlHeader sid buf.w buf.h buf.fmt total with
        | none => []
        | some hdr =>
          hdr ++ ((fit.takeWhile (fun (y : Nat) => decide (0 ≤ buf.off + (y : Int) * buf.stride))).map
            (fun (y : Nat) => rowSlice mem (buf.off + (y : Int) * buf.stride) row)).flatten

/-- `WaylandClient.handle_surface`.  The whole body is wrapped in try/except
in the source, so this handler is total: an exception keeps the effects made
so far (see the frame and commit branches). -/
def handleSurface (env : Env) (st : ClientState) (oid opcode : Nat) (pay : List Nat) : HandlerOut :=
  if opcode = 0 then
    { st := { st with objects := dictDel st.objects oid, surfaces := dictDel st.surfaces oid } }
  else if opcode = 1 then
    if pay.length < 12 then
      if 4 ≤ pay.length then
        let bid := getLE32 pay 0
        { st := { st with surfaces := dictSet st.surfaces oid (if bid = 0 then none else some bid) } }
      else { st := st }
    else
      let bid := getLE32 pay 0
      { st := { st with surfaces := dictSet st.surfaces oid (if bid = 0 then none else some bid) } }
  else if opcode = 3 then
    if pay.length < 4 then { st := st }
    else
      let cb := getLE32 pay 0
      let objs := dictSet st.objects cb (iWlCallback, 1)
      match encodeMessage cb 0 [.auint (env.now % 4294967296)] with
      | some m => { st := { st with objects := dictDel objs cb }, res := [m] }
      | none => { st := { st with objects := objs } }
  else if opcode = 6 then
    match List.lookup oid st.surfaces with
    | some (some bid) =>
      if bid ≠ 0 then
        match List.lookup bid st.buffers with
        | some meta =>
          let px := sendPixl oid meta st.shmPools
          match encodeMessage bid 0 [] with
          | some m => { st := st, res := [m], host := px }
          | none => { st := st, host := px }
        | none => { st := st }
      else { st := st }
    | _ => { st := st }
  else { st := st }

/-- `WaylandClient.handle_xdg_wm_base`. -/
def handleXdgWmBase (st : ClientState) (opcode : Nat) (pay : List Nat) : Option HandlerOut := do
  if opcode = 2 then
    let (xdgId, p1) ← readUint pay 0
    let (_, _) ← readUint pay p1
    some { st := { st with objects := dictSet st.objects xdgId (iXdgSurface, 3) } }
  else some { st := st }

/-- `WaylandClient.handle_xdg_surface` (get_toplevel). -/
def handleXdgSurface (st : ClientState) (oid opcode : Nat) (pay : List Nat) : Option HandlerOut := do
  if opcode = 1 then
    let (tid, _) ← readUint pay 0
    let st2 := { st with objects := dictSet st.objects tid (iXdgToplevel, 3) }
    let m1 ← encodeMessage tid 0 [.auint 800, .auint 600, .abytes []]
    match nextSerial st2 with
    | (ser, st3) =>
      let m2 ← encodeMessage oid 0 [.auint ser]
      let (st4, sent) ← tryFocus st3
      some { st := st4, sent := sent, res := [m1, m2] }
  else some { st := st }

/-- `WaylandClient.handle_seat`. -/
def handleSeat (st : ClientState) (opcode : Nat) (pay : List Nat) : Option HandlerOut := do
  if opcode = 0 then
    let (nid, _) ← readUint pay 0
    let st2 := { st with objects := dictSet st.objects nid (iWlPointer, 1) }
    let (st3, sent) ← tryFocus st2
    some { st := st3, sent := sent }
  else if opcode = 1 then
    let (nid, _) ← readUint pay 0
    let st2 := { st with objects := dictSet st.objects nid (iWlKeyboard, 1) }
    let (st3, sent) ← tryFocus st2
    some { st := st3, sent := sent }
  else some { st := st }

/-! ## Dispatcher and message loop (`WaylandClient.handle_message`) -/

/-- One externally visible output of processing: bytes sent to the client
socket or bytes written to the host channel, in emission order. -/
inductive IOEvent where
  | toClient (bytes : List Nat)
  | toHost (bytes : List Nat)
deriving DecidableEq

/-- The host-channel events of one handler invocation (no event when the
handler made no write call). -/
def hostEvents (h : List Nat) : List IOEvent := if h.isEmpty then [] else [.toHost h]

/-- The dispatch chain of `handle_message`, in source order.  Interfaces with
no handler (and `wl_callback`) are accepted and ignored. -/
def dispatch (env : Env) (st : ClientState) (oid opcode : Nat) (pay : List Nat)
    (iface : List Nat) (fds : List Int) : Option (HandlerOut × List Int) :=
  if iface = iWlDisplay then (handleDisplay env st opcode pay).map (fun r => (r, fds))
  else if iface = iWlRegistry then (handleRegistry st opcode pay).map (fun r => (r, fds))
  else if iface = iWlCompositor then (handleCompositor st opcode pay).map (fun r => (r, fds))
  else if iface = iWlShm then handleShm env st opcode pay fds
  else if iface = iWlShmPool then (handleShmPool st oid opcode pay).map (fun r => (r, fds))
  else if iface = iWlBuffer then (handleBuffer st oid opcode).map (fun r => (r, fds))
  else if iface = iWlSurface then some (handleSurface env st oid opcode pay, fds)
  else if iface = iXdgWmBase then (handleXdgWmBase st opcode pay).map (fun r => (r, fds))
  else if iface = iXdgSurface then (handleXdgSurface st oid opcode pay).map (fun r => (r, fds))
  else if iface = iXdgToplevel then some ({ st := st }, fds)
  else if iface = iWlSeat then (handleSeat st opcode pay).map (fun r => (r, fds))
  else if iface = iWlDataDeviceManager then (handleDataDeviceManager st opcode pay).map (fun r => (r, fds))
  else if iface = iWlRegion then (handleRegion st oid opcode).map (fun r => (r, fds))
  else if iface = iWlSubcompositor then (handleSubcompositor st oid opcode pay).map (fun r => (r, fds))
  else if iface = iWlCallback then some ({ st := st }, fds)
  else some ({ st := st }, fds)

/-- The `while offset < len(data)` loop of `handle_message`.  Fuel is
`data.length + 1`; every iteration consumes `size ≥ 8` bytes, so the fuel
never runs out before the remaining data is shorter than a header.  Returns
the state, events emitted during the loop (immediate sends and host writes),
the accumulated responses, and the remaining fd queue.  A malformed
(`size < 8`) or truncated message breaks out of the loop, discarding the
rest of the chunk; an unknown object id skips one message. -/
def handleLoop (env : Env) : Nat → ClientState → List Nat → List Int →
    Option (ClientState × List IOEvent × List (List Nat) × List Int)
  | 0, st, _, fds => some (st, [], [], fds)
  | fuel + 1, st, data, fds =>
    if data.length < 8 then some (st, [], [], fds)
    else
      let oid := getLE32 data 0
      let word := getLE32 data 4
      let size := word / 65536
      let opcode := word % 65536
      if size < 8 ∨ data.length < size then some (st, [], [], fds)
      else
        let pay := (data.take size).drop 8
        let rest := data.drop size
        match List.lookup oid st.objects with
        | none => handleLoop env fuel st rest fds
        | some (iface, _) =>
          match dispatch env st oid opcode pay iface fds with
          | none => none
          | some (r, fds2) =>
            match handleLoop env fuel r.st rest fds2 with
            | none => none
            | some (st3, evs, resps, fds3) =>
              some (st3, (r.sent.map IOEvent.toClient ++ hostEvents r.host) ++ evs,
                r.res ++ resps, fds3)

/-- `WaylandClient.handle_message` on one received chunk with its ancillary
fds: run the dispatch loop, then flush the accumulated responses to the
client.  `none` models an uncaught handler exception (which the caller in
`run_stdio` answers by closing the connection). -/
def handleMessage (env : Env) (st : ClientState) (data : List Nat) (fds : List Int) :
    Option (ClientState × List IOEvent × List Int) :=
  match handleLoop env (data.length + 1) st data fds with
  | none => none
  | some (st2, evs, resps, fds2) => some (st2, evs ++ resps.map IOEvent.toClient, fds2)

/-- `WaylandProxy.broadcast_input` for one connection: a 20-byte INPT record
is parsed, one serial is taken, and one event per matching input object is
encoded.  A failed encode aborts the whole try-block with nothing sent (the
serial stays consumed). -/
def broadcastInput (env : Env) (st : ClientState) (data : List Nat) : ClientState × List (List Nat) :=
  if data.length < 20 then (st, [])
  else if data.take 4 ≠ asciiBytes ("INPT") then (st, [])
  else
    let tc := getLE32 data 4
    let p1 := getLE32 data 8
    let p2 := getLE32 data 12
    match nextSerial st with
    | (ser, st2) =>
      let now := env.now % 4294967296
      let keys := (st2.objects.filter (fun p => p.2.1 == iWlKeyboard)).map (fun p => p.1)
      let ptrs := (st2.objects.filter (fun p => p.2.1 == iWlPointer)).map (fun p => p.1)
      let msgsOpt :=
        if tc = 1 then keys.mapM (fun k => encodeMessage k 3 [.auint ser, .auint now, .auint p2, .auint p1])
        else if tc = 2 then ptrs.mapM (fun p => encodeMessage p 2 [.auint now, .auint (p1 * 256), .auint (p2 * 256)])
        else if tc = 3 then ptrs.mapM (fun p => encodeMessage p 3 [.auint ser, .auint now, .auint p2, .auint p1])
        else some []
      match msgsOpt with
      | some msgs => (st2, msgs)
      | none => (st2, [])

/-! ## Connection teardown and fd accounting (`WaylandClient.close`) -/

/-- One OS-level release action performed during `WaylandClient.close`. -/
inductive Cleanup where
  | unmap (pid : Nat)
  | closeFd (fd : Int)
  | closeSock
deriving DecidableEq

/-- The per-pool release block of `WaylandClient.close`: `mm.close()` when
mapped, then `os.close(fd)` when `fd >= 0`. -/
def poolBlock (pe : Nat × PoolEntry) : List Cleanup :=
  (match pe.2.mm with
   | some _ => [Cleanup.unmap pe.1]
   | none => []) ++
  (if 0 ≤ pe.2.fd then [Cleanup.closeFd pe.2.fd] else [])

/-- The ordered release actions of `WaylandClient.close`: for each pool in
table order its `poolBlock`, finally the socket. -/
def closeActions (st : ClientState) : List Cleanup :=
  st.shmPools.flatMap poolBlock ++ [Cleanup.closeSock]

/-- One `recvmsg` readiness event of `run_stdio` for a connection:
the received bytes and extracted SCM_RIGHTS fds go to `handle_message`;
whatever fds the handlers did not consume are dropped on the floor (the
Python list dies, the kernel descriptors stay open: `leaked`). -/
def recvStep (env : Env) (st : ClientState) (leaked : List Int) (data : List Nat)
    (fds : List Int) : Option (ClientState × List Int) :=
  match handleMessage env st data fds with
  | none => none
  | some (st2, _, fdsLeft) => some (st2, leaked ++ fdsLeft)

/-- Descriptors the process still holds for this connection after `close()`
ran: pool fds are closed only when `fd >= 0`, and nothing ever closes the
leaked ancillary fds. -/
def fdsHeldAfterClose (st : ClientState) (leaked : List Int) : List Int :=
  ((st.shmPools.map fun pe => pe.2.fd).filter (fun fd => fd < 0)) ++ leaked

/-! ## Definitions modelled from the spec, for comparison with the code -/

/-- Modelled from the spec: the row count `N` of claim C1, "the number of
rows y with offset + y*stride + row ≤ pool_size" over `y < h`. -/
def specRowCount (buf : BufferMeta) (poolSize : Nat) : Nat :=
  ((List.range buf.h.toNat).filter
    (fun (y : Nat) => decide (buf.off + (y : Int) * buf.stride + buf.w * 4 ≤ (poolSize : Int)))).length

/-- Modelled from the spec: the full PIXL record claim C1 requires on a
commit whose buffer refers to a mapped pool — header with payload-length
field `N*row`, then the first `N` rows, row `y` taken from the mapping at
`offset + y*stride`. -/
def specPixlOutput (sid : Nat) (buf : BufferMeta) (mem : List Nat) (poolSize : Nat) : List Nat :=
  let row : Int := buf.w * 4
  let n := specRowCount buf poolSize
  asciiBytes ("PIXL") ++ le32 sid ++ le32 buf.w.toNat ++ le32 buf.h.toNat ++
    le32 buf.fmt ++ le32 (n * row.toNat) ++
    ((List.range n).map (fun (y : Nat) => rowSlice mem (buf.off + (y : Int) * buf.stride) row)).flatten

/-- The serials issued by `n` successive `next_serial` calls. -/
def issueSerials (st : ClientState) : Nat → List Nat
  | 0 => []
  | n + 1 =>
    match nextSerial st with
    | (ser, st2) => ser :: issueSerials st2 n

/-! ## Wire-format lemmas -/

theorem le32_length (n : Nat) : (le32 n).length = 4 := rfl

theorem byteAt_append (pre l : List Nat) (i : Nat) :
    byteAt (pre ++ l) (pre.length + i) = byteAt l i := by
  unfold byteAt
  rw [List.getD_append_right pre l 0 (pre.length + i) (by omega)]
  congr 1
  omega

theorem getLE32_append (pre l : List Nat) (i : Nat) :
    getLE32 (pre ++ l) (pre.length + i) = getLE32 l i := by
  unfold getLE32
  rw [show pre.length + i + 1 = pre.length + (i + 1) from by omega,
      show pre.length + i + 2 = pre.length + (i + 2) from by omega,
      show pre.length + i + 3 = pre.length + (i + 3) from by omega,
      byteAt_append, byteAt_append, byteAt_append, byteAt_append]

theorem getLE32_le32 (n : Nat) (rest : List Nat) :
    getLE32 (le32 n ++ rest) 0 = n % 4294967296 := by
  simp only [le32, getLE32, byteAt, List.cons_append, List.nil_append,
    List.getD_cons_zero, List.getD_cons_succ]
  omega

theorem readUint_append (pre l : List Nat) (i : Nat) (h : i + 4 ≤ l.length) :
    readUint (pre ++ l) (pre.length + i) = some (getLE32 l i, pre.length + i + 4) := by
  unfold readUint
  rw [if_pos (by simp only [List.length_append]; omega), getLE32_append]

theorem readInt_append (pre l : List Nat) (i : Nat) (h : i + 4 ≤ l.length) :
    readInt (pre ++ l) (pre.length + i) = some (asI32 (getLE32 l i), pre.length + i + 4) := by
  unfold readInt
  rw [if_pos (by simp only [List.length_append]; omega), getLE32_append]

theorem readUint_le32 (a : Nat) (rest : List Nat) :
    readUint (le32 a ++ rest) 0 = some (a % 4294967296, 4) := by
  unfold readUint
  rw [if_pos (by simp [le32]), getLE32_le32]

theorem readUint_le32_at4 (a b : Nat) (rest : List Nat) :
    readUint (le32 a ++ (le32 b ++ rest)) 4 = some (b % 4294967296, 8) := by
  have h := readUint_append (le32 a) (le32 b ++ rest) 0 (by simp [le32])
  rw [le32_length] at h
  simpa [getLE32_le32] using h

theorem toU32_lt (i : Int) : toU32 i < 4294967296 := by
  unfold toU32
  omega

theorem asI32_toU32 (i : Int) (h1 : -2147483648 ≤ i) (h2 : i < 2147483648) :
    asI32 (toU32 i) = i := by
  unfold asI32 toU32
  split <;> omega



theorem pyIdx_natCast (len n : Nat) (h : n ≤ len) : pyIdx len ((n : Nat) : Int) = n := by
  unfold pyIdx
  rw [if_neg (by omega), Int.toNat_natCast]
  omega

theorem pySlice_exact (A mid tail : List Nat) :
    pySlice (A ++ (mid ++ tail)) ((A.length : Nat) : Int) (((A.length + mid.length : Nat)) : Int) = mid := by
  unfold pySlice
  have hlen : (A ++ (mid ++ tail)).length = A.length + (mid.length + tail.length) := by
    simp [List.length_append]
  rw [pyIdx_natCast _ _ (by omega), pyIdx_natCast _ _ (by omega)]
  rw [← List.append_assoc]
  rw [show A.length + mid.length = (A ++ mid).length from (by simp [List.length_append])]
  rw [List.take_left]
  exact List.drop_left A mid

theorem readString_append (pre s rest : List Nat) (hs : stripNulls s = s)
    (hlen : s.length + 1 < 4294967296) :
    readString (pre ++ (le32 (s.length + 1) ++ (s ++ ([0] ++
        (List.replicate (pad4 (s.length + 1)) 0 ++ rest))))) pre.length
      = some (s, pre.length + (4 + (s.length + 1) + pad4 (s.length + 1))) := by
  unfold readString
  have hu := readUint_append pre (le32 (s.length + 1) ++ (s ++ ([0] ++
      (List.replicate (pad4 (s.length + 1)) 0 ++ rest)))) 0 (by simp [le32])
  rw [show pre.length + 0 = pre.length from by omega] at hu
  rw [hu, getLE32_le32, Nat.mod_eq_of_lt hlen]
  dsimp only
  have harr : pre ++ (le32 (s.length + 1) ++ (s ++ ([0] ++
      (List.replicate (pad4 (s.length + 1)) 0 ++ rest)))) =
      (pre ++ le32 (s.length + 1)) ++ (s ++ ([0] ++
      (List.replicate (pad4 (s.length + 1)) 0 ++ rest))) := by
    rw [List.append_assoc]
  rw [harr]
  have hA : pre.length + 0 + 4 = (pre ++ le32 (s.length + 1)).length := by
    simp [le32]
  have hb : ((pre.length + 0 + 4 : Nat) : Int) + ((s.length + 1 : Nat) : Int) - 1 =
      (((pre ++ le32 (s.length + 1)).length + s.length : Nat) : Int) := by
    rw [← hA]
    push_cast
    omega
  rw [hb, show ((pre.length + 0 + 4 : Nat) : Int) =
      (((pre ++ le32 (s.length + 1)).length : Nat) : Int) from by rw [← hA]]
  rw [pySlice_exact (pre ++ le32 (s.length + 1)) s
    ([0] ++ (List.replicate (pad4 (s.length + 1)) 0 ++ rest)), hs]
  rw [show pre.length + 0 + 4 + (s.length + 1) + pad4 (s.length + 1) =
    pre.length + (4 + (s.length + 1) + pad4 (s.length + 1)) from by omega]


theorem readArg_append (pre rest : List Nat) (a : WireArg) (k : ArgKind) (p : List Nat)
    (hk : argKind a = some k) (hp : encodeArg a = some p) (hwf : argWF a) :
    readArg k (pre ++ (p ++ rest)) pre.length = some (a, pre.length + p.length) := by
  cases a with
  | auint n =>
    cases hk
    simp only [encodeArg, Option.some.injEq] at hp
    subst hp
    simp only [readArg]
    rw [show pre.length = pre.length + 0 from by omega,
      readUint_append pre (le32 (n % 4294967296) ++ rest) 0 (by simp [le32]),
      getLE32_le32]
    have hn : n % 4294967296 = n := Nat.mod_eq_of_lt hwf
    simp [hn, le32_length]
  | aint i =>
    cases hk
    simp only [encodeArg, Option.some.injEq] at hp
    subst hp
    simp only [readArg]
    rw [show pre.length = pre.length + 0 from by omega,
      readInt_append pre (le32 (toU32 i) ++ rest) 0 (by simp [le32]),
      getLE32_le32, Nat.mod_eq_of_lt (toU32_lt i), asI32_toU32 i hwf.1 hwf.2]
    simp [le32_length]
  | astr s =>
    cases hk
    simp only [encodeArg] at hp
    by_cases hlen : s.length + 1 < 4294967296
    · rw [if_pos hlen] at hp
      simp only [Option.some.injEq] at hp
      subst hp
      simp only [readArg]
      have h := readString_append pre s rest hwf hlen
      rw [show pre ++ (le32 (s.length + 1) ++ s ++ [0] ++
          List.replicate (pad4 (s.length + 1)) 0 ++ rest) =
          pre ++ (le32 (s.length + 1) ++ (s ++ ([0] ++
          (List.replicate (pad4 (s.length + 1)) 0 ++ rest)))) from by
        simp [List.append_assoc]]
      rw [h]
      simp [le32_length, List.length_append]
      omega
    · rw [if_neg hlen] at hp
      cases hp
  | abytes b => exact absurd hk (by simp [argKind])

theorem readArgs_append : ∀ (args : List WireArg) (ks : List ArgKind)
    (pieces : List (List Nat)) (pre rest : List Nat),
    args.mapM argKind = some ks → args.mapM encodeArg = some pieces →
    (∀ a ∈ args, argWF a) →
    readArgs ks (pre ++ (pieces.flatten ++ rest)) pre.length =
      some (args, pre.length + pieces.flatten.length)
  | [], ks, pieces, pre, rest, hk, hp, _ => by
    simp only [List.mapM_nil, Option.pure_def, Option.some.injEq] at hk hp
    subst hk; subst hp
    simp [readArgs]
  | a :: args, ks, pieces, pre, rest, hk, hp, hwf => by
    rw [List.mapM_cons] at hk hp
    simp only [Option.pure_def, Option.bind_eq_bind, Option.bind_eq_some,
      Option.some.injEq] at hk hp
    obtain ⟨k, hk1, ks2, hk2, hkeq⟩ := hk
    obtain ⟨p, hp1, pieces2, hp2, hpeq⟩ := hp
    subst hkeq; subst hpeq
    simp only [readArgs]
    have harr : pre ++ ((p :: pieces2).flatten ++ rest) =
        pre ++ (p ++ (pieces2.flatten ++ rest)) := by
      simp [List.flatten_cons, List.append_assoc]
    rw [harr, readArg_append pre (pieces2.flatten ++ rest) a k p hk1 hp1
      (hwf a (by simp))]
    dsimp only
    have hih := readArgs_append args ks2 pieces2 (pre ++ p) rest hk2 hp2
      (fun x hx => hwf x (by simp [hx]))
    rw [show (pre ++ p) ++ (pieces2.flatten ++ rest) =
        pre ++ (p ++ (pieces2.flatten ++ rest)) from by simp [List.append_assoc]] at hih
    rw [show pre.length + p.length = (pre ++ p).length from by simp [List.length_append]]
    rw [hih]
    simp [List.flatten_cons, List.length_append]
    omega

theorem getLE32_at4 (a : Nat) (l : List Nat) : getLE32 (le32 a ++ l) 4 = getLE32 l 0 := by
  have h := getLE32_append (le32 a) l 0
  rw [le32_length] at h
  simpa using h

theorem drop8_le32 (a b : Nat) (l : List Nat) : (le32 a ++ (le32 b ++ l)).drop 8 = l := by
  rw [← List.append_assoc]
  rw [show (8 : Nat) = (le32 a ++ le32 b).length from by simp [le32]]
  exact List.drop_left _ _

theorem encodeMessage_some (oid opcode : Nat) (args : List WireArg) (pieces : List (List Nat))
    (h1 : args.mapM encodeArg = some pieces) (h2 : oid < 4294967296)
    (h3 : 8 + pieces.flatten.length < 65536) :
    encodeMessage oid opcode args = some (le32 oid ++
      le32 ((8 + pieces.flatten.length) * 65536 + opcode % 65536) ++ pieces.flatten) := by
  unfold encodeMessage
  rw [h1]
  dsimp only
  rw [if_pos ⟨h2, h3⟩]

/-- Wire round trip for array-free well-formed messages: what `encode_message`
produces, the readers give back. -/
theorem encode_decode (oid opcode : Nat) (args : List WireArg) (ks : List ArgKind)
    (bytes : List Nat) (ho : oid < 4294967296) (hop : opcode < 65536)
    (hk : args.mapM argKind = some ks) (hwf : ∀ a ∈ args, argWF a)
    (henc : encodeMessage oid opcode args = some bytes) :
    decodeMessage ks bytes = some (oid, opcode, args) := by
  unfold encodeMessage at henc
  cases hpm : args.mapM encodeArg with
  | none => rw [hpm] at henc; cases henc
  | some pieces =>
    rw [hpm] at henc
    dsimp only at henc
    by_cases hcond : oid < 4294967296 ∧ 8 + pieces.flatten.length < 65536
    · rw [if_pos hcond] at henc
      have hbytes := (Option.some.injEq _ _).mp henc.symm
      subst hbytes
      rw [List.append_assoc]
      have hlenb : (le32 oid ++ (le32 ((8 + pieces.flatten.length) * 65536 + opcode % 65536) ++
          pieces.flatten)).length = 8 + pieces.flatten.length := by
        simp [le32]
        omega
      unfold decodeMessage decodeHeader
      rw [if_neg (by omega)]
      dsimp only
      rw [getLE32_le32, Nat.mod_eq_of_lt ho, getLE32_at4, getLE32_le32]
      have hword : ((8 + pieces.flatten.length) * 65536 + opcode % 65536) % 4294967296 =
          (8 + pieces.flatten.length) * 65536 + opcode % 65536 := by omega
      rw [hword]
      have hopc : ((8 + pieces.flatten.length) * 65536 + opcode % 65536) % 65536 = opcode := by
        omega
      have hsz : ((8 + pieces.flatten.length) * 65536 + opcode % 65536) / 65536 =
          8 + pieces.flatten.length := by omega
      rw [hopc, hsz, if_neg (by omega)]
      rw [List.take_of_length_le (by omega), drop8_le32]
      have hr := readArgs_append args ks pieces [] [] hk hpm hwf
      simp only [List.nil_append, List.append_nil, List.length_nil, Nat.zero_add] at hr
      rw [hr]
    · rw [if_neg hcond] at henc; cases henc

theorem encodePieces_mod4 : ∀ (args : List WireArg) (ks : List ArgKind)
    (pieces : List (List Nat)), args.mapM argKind = some ks →
    args.mapM encodeArg = some pieces → pieces.flatten.length % 4 = 0
  | [], ks, pieces, hk, hp => by
    simp only [List.mapM_nil, Option.pure_def, Option.some.injEq] at hp
    subst hp
    rfl
  | a :: args, ks, pieces, hk, hp => by
    rw [List.mapM_cons] at hk hp
    simp only [Option.pure_def, Option.bind_eq_bind, Option.bind_eq_some,
      Option.some.injEq] at hk hp
    obtain ⟨k, hk1, ks2, hk2, hkeq⟩ := hk
    obtain ⟨p, hp1, pieces2, hp2, hpeq⟩ := hp
    subst hpeq
    have hrest := encodePieces_mod4 args ks2 pieces2 hk2 hp2
    have hhead : p.length % 4 = 0 := by
      cases a with
      | auint n =>
        simp only [encodeArg, Option.some.injEq] at hp1
        subst hp1
        simp [le32]
      | aint i =>
        simp only [encodeArg, Option.some.injEq] at hp1
        subst hp1
        simp [le32]
      | astr s =>
        simp only [encodeArg] at hp1
        by_cases hlen : s.length + 1 < 4294967296
        · rw [if_pos hlen] at hp1
          have := (Option.some.injEq _ _).mp hp1.symm
          subst this
          simp [le32_length, List.length_append, pad4]
          omega
        · rw [if_neg hlen] at hp1; cases hp1
      | abytes b => exact absurd hk1 (by simp [argKind])
    simp only [List.flatten_cons, List.length_append]
    omega

/-- The byte length of every array-free encoded message is a multiple of 4. -/
theorem encodeMessage_mod4 (oid opcode : Nat) (args : List WireArg) (ks : List ArgKind)
    (bytes : List Nat) (hk : args.mapM argKind = some ks)
    (henc : encodeMessage oid opcode args = some bytes) : bytes.length % 4 = 0 := by
  unfold encodeMessage at henc
  cases hpm : args.mapM encodeArg with
  | none => rw [hpm] at henc; cases henc
  | some pieces =>
    rw [hpm] at henc
    dsimp only at henc
    by_cases hcond : oid < 4294967296 ∧ 8 + pieces.flatten.length < 65536
    · rw [if_pos hcond] at henc
      have hbytes := (Option.some.injEq _ _).mp henc.symm
      subst hbytes
      have hfl := encodePieces_mod4 args ks pieces hk hpm
      rw [List.length_flatten] at hfl
      simp [le32, List.length_flatten]
      omega
    · rw [if_neg hcond] at henc; cases henc

/-! ## Claim C4: wire round trip -/

/-- C4 counterexample: the message `(1, 0, [array [1]])` is valid for
`encode_message` (a `bytes` argument), yet its encoding is 9 bytes long —
`len(encode(m)) % 4 = 1 ≠ 0` — because arrays are appended raw, with no
u32 length prefix and no padding, contrary to the claim. -/
theorem c4_counterexample :
    encodeMessage 1 0 [.abytes [1]] = some [1, 0, 0, 0, 0, 0, 9, 0, 1] ∧
    ([1, 0, 0, 0, 0, 0, 9, 0, 1] : List Nat).length % 4 ≠ 0 := by
  constructor
  · decide
  · decide

/-- C4 (amended): for every valid message whose arguments are drawn from
{uint, int, string} only — uints in u32 range, ints in i32 range, strings
with no leading/trailing NUL — decoding the bytes produced by
`encode_message` with the matching readers yields the message again, and the
byte length of the encoding is a multiple of 4.  Array (`bytes`) arguments
are excluded: the source appends them raw without a length prefix or
padding, so the claim fails for them (see the counterexample). -/
theorem c4_roundtrip_amended (oid opcode : Nat) (args : List WireArg) (ks : List ArgKind)
    (bytes : List Nat) (ho : oid < 4294967296) (hop : opcode < 65536)
    (hk : args.mapM argKind = some ks) (hwf : ∀ a ∈ args, argWF a)
    (henc : encodeMessage oid opcode args = some bytes) :
    decodeMessage ks bytes = some (oid, opcode, args) ∧ bytes.length % 4 = 0 :=
  ⟨encode_decode oid opcode args ks bytes ho hop hk hwf henc,
   encodeMessage_mod4 oid opcode args ks bytes hk henc⟩

theorem c4_witness :
    3 < 4294967296 ∧
    (decodeMessage [.uint, .int, .str]
        [3, 0, 0, 0, 5, 0, 24, 0, 7, 0, 0, 0, 254, 255, 255, 255, 3, 0, 0, 0, 104, 105, 0, 0] =
      some (3, 5, [.auint 7, .aint (-2), .astr [104, 105]]) ∧
    ([3, 0, 0, 0, 5, 0, 24, 0, 7, 0, 0, 0, 254, 255, 255, 255, 3, 0, 0, 0, 104, 105, 0, 0] :
      List Nat).length % 4 = 0) :=
  ⟨by decide,
   c4_roundtrip_amended 3 5 [.auint 7, .aint (-2), .astr [104, 105]] [.uint, .int, .str]
     [3, 0, 0, 0, 5, 0, 24, 0, 7, 0, 0, 0, 254, 255, 255, 255, 3, 0, 0, 0, 104, 105, 0, 0]
     (by decide) (by decide) (by decide) (by decide) (by decide)⟩

/-! ## Claims C7 and C8: surface commit / attach tolerance -/

/-- C7: a `wl_surface.commit` whose surface has no attached buffer id, whose
attachment is detached (`None`, which is also how a zero id is recorded), or
whose id is zero or not a live buffer, is silently skipped: no responses, no
immediate sends, no host bytes, state unchanged. -/
theorem c7_commit_skip (env : Env) (st : ClientState) (oid : Nat) (pay : List Nat)
    (h : List.lookup oid st.surfaces = none ∨ List.lookup oid st.surfaces = some none ∨
      ∃ b, List.lookup oid st.surfaces = some (some b) ∧
        (b = 0 ∨ List.lookup b st.buffers = none)) :
    handleSurface env st oid 6 pay = { st := st } := by
  rcases h with h | h | ⟨b, hb, hb2⟩
  · simp [handleSurface, h]
  · simp [handleSurface, h]
  · rcases hb2 with hb0 | hbuf
    · subst hb0
      simp [handleSurface, hb]
    · simp [handleSurface, hb, hbuf]

theorem c7_witness :
    (List.lookup 4 initState.surfaces = none ∨ List.lookup 4 initState.surfaces = some none ∨
      ∃ b, List.lookup 4 initState.surfaces = some (some b) ∧
        (b = 0 ∨ List.lookup b initState.buffers = none)) ∧
    handleSurface {} initState 4 6 [] = { st := initState } :=
  ⟨Or.inl (by decide), c7_commit_skip {} initState 4 [] (Or.inl (by decide))⟩

/-- C8: `wl_surface.attach` by payload length.  Fewer than 4 bytes: the
message is skipped and the recorded buffer is unchanged; between 4 and 11
bytes: only the buffer id is read and recorded (0 recorded as detached);
12 bytes or more: the id (plus x, y) is read and recorded the same way.
`handleSurface` is a total function — attach never fails and never drops
the connection. -/
theorem c8_attach_cases (env : Env) (st : ClientState) (oid : Nat) (pay : List Nat) :
    handleSurface env st oid 1 pay =
      if pay.length < 4 then { st := st }
      else if pay.length < 12 then
        { st := { st with surfaces := (dictSet st.surfaces oid
            (if getLE32 pay 0 = 0 then none else some (getLE32 pay 0))) } }
      else
        { st := { st with surfaces := (dictSet st.surfaces oid
            (if getLE32 pay 0 = 0 then none else some (getLE32 pay 0))) } } := by
  by_cases h4 : pay.length < 4
  · have h12 : pay.length < 12 := by omega
    simp [handleSurface, h4, h12, show ¬ 4 ≤ pay.length from by omega]
  · by_cases h12 : pay.length < 12
    · simp [handleSurface, h4, h12, show 4 ≤ pay.length from by omega]
    · simp [handleSurface, h4, h12]

/-! ## Claim C10: create_pool with an empty fd queue -/

/-- C10: when `wl_shm.create_pool` is processed with an empty fd queue, the
new id is still registered as `wl_shm_pool` v1 in the object table, no entry
is added to the pool registry (the state's `shmPools` is untouched), and no
response is emitted; any buffer committed against such a pool produces no
PIXL bytes (the frame extractor returns at `pid not in pools`) and the
commit path writes nothing to the host. -/
theorem c10_pool_no_fd :
    (∀ (env : Env) (st : ClientState) (pid size : Nat) (rest : List Nat),
      pid < 4294967296 →
      handleShm env st 0 (le32 pid ++ (le32 size ++ rest)) [] =
        some ({ st := { st with objects := dictSet st.objects pid (iWlShmPool, 1) } }, [])) ∧
    (∀ (env : Env) (st : ClientState) (oid : Nat) (pay : List Nat) (b : Nat) (meta : BufferMeta),
      List.lookup oid st.surfaces = some (some b) → b ≠ 0 →
      List.lookup b st.buffers = some meta →
      List.lookup meta.pool st.shmPools = none →
      sendPixl oid meta st.shmPools = [] ∧ (handleSurface env st oid 6 pay).host = []) := by
  constructor
  · intro env st pid size rest hpid
    simp [handleShm, readUint_le32, readUint_le32_at4, Nat.mod_eq_of_lt hpid]
  · intro env st oid pay b meta hs hb0 hbuf hpool
    have hpx : sendPixl oid meta st.shmPools = [] := by
      unfold sendPixl
      rw [hpool]
    refine ⟨hpx, ?_⟩
    cases h : encodeMessage b 0 [] <;>
      simp [handleSurface, hs, hbuf, hb0, h, hpx]

theorem c10_witness :
    8 < 4294967296 ∧
    (handleShm {} initState 0 (le32 8 ++ (le32 4096 ++ [])) [] =
      some ({ st := { initState with objects := dictSet initState.objects 8 (iWlShmPool, 1) } }, [])) :=
  ⟨by decide, c10_pool_no_fd.1 {} initState 8 4096 [] (by decide)⟩

/-! ## Claim C3: framing desync on a client stream -/

/-- C3 counterexample: a valid `get_registry` message (object 1, opcode 1,
size 12, new_id 2) with one garbage byte `255` prepended.  `handle_message`
decodes a shifted header, finds it truncated, and breaks: the whole chunk —
including the valid message — is dropped, no registry is created, no global
is emitted (the claim expects the garbage byte to be skipped and the seven
globals to be emitted).  Only "never drops the connection" holds. -/
theorem c3_counterexample :
    handleMessage {} initState (255 :: (le32 1 ++ (le32 (12 * 65536 + 1) ++ le32 2))) [] =
      some (initState, [], []) := by
  decide

/-- C3 (amended): on a client stream chunk whose first decoded header has
`size < 8` or is truncated, `handle_message` stops parsing, discards the
remaining bytes of the chunk, emits nothing, and keeps the connection (the
result is `some` with the state unchanged).  The discard-one-byte-and-retry
recovery of the spec exists only on the host stdin channel in `run_stdio`,
not on client streams, so a garbage byte prepended to a valid message makes
the whole chunk be dropped rather than resynchronised. -/
theorem c3_desync_amended (env : Env) (st : ClientState) (data : List Nat) (fds : List Int)
    (h8 : 8 ≤ data.length)
    (hbad : getLE32 data 4 / 65536 < 8 ∨ data.length < getLE32 data 4 / 65536) :
    handleMessage env st data fds = some (st, [], fds) := by
  unfold handleMessage
  simp only [handleLoop]
  rw [if_neg (by omega), if_pos hbad]
  simp

theorem c3_witness :
    8 ≤ ([0, 0, 0, 0, 0, 0, 0, 0] : List Nat).length ∧
    handleMessage {} initState [0, 0, 0, 0, 0, 0, 0, 0] [] = some (initState, [], []) :=
  ⟨by decide, c3_desync_amended {} initState [0, 0, 0, 0, 0, 0, 0, 0] [] (by decide)
    (Or.inl (by decide))⟩

/-! ## Claim C9: resource release on connection close -/

theorem poolBlock_order : ∀ (l : List (Nat × PoolEntry)) (tail : List Cleanup)
    (pid : Nat) (e : PoolEntry), (pid, e) ∈ l → e.mm.isSome → 0 ≤ e.fd →
    ∃ l1 l2 l3, l.flatMap poolBlock ++ tail =
      l1 ++ Cleanup.unmap pid :: (l2 ++ Cleanup.closeFd e.fd :: l3)
  | [], _, _, _, h, _, _ => absurd h (by simp)
  | pe :: rest, tail, pid, e, h, hmm, hfd => by
    rcases List.mem_cons.mp h with heq | hmem
    · subst heq
      cases hm : e.mm with
      | none => rw [hm] at hmm; cases hmm
      | some m =>
        refine ⟨[], [], rest.flatMap poolBlock ++ tail, ?_⟩
        simp [poolBlock, hm, hfd]
    · obtain ⟨l1, l2, l3, hrec⟩ := poolBlock_order rest tail pid e hmem hmm hfd
      refine ⟨poolBlock pe ++ l1, l2, l3, ?_⟩
      simp only [List.flatMap_cons, List.append_assoc, hrec]

/-- C9 counterexample: a chunk carrying one message addressed at an unknown
object arrives with ancillary fd 7; no handler consumes the fd, so it is
dropped (leaked) when the chunk is done, and `close()` never closes it —
after the connection closes the process still holds fd 7, contradicting the
claim's "zero file descriptors ... including any fds received as ancillary
data but not yet consumed". -/
theorem c9_counterexample :
    recvStep {} initState [] (le32 99 ++ le32 (8 * 65536)) [7] = some (initState, [7]) ∧
    Cleanup.closeFd 7 ∉ closeActions initState ∧
    fdsHeldAfterClose initState [7] = [7] := by
  refine ⟨by decide, by decide, by decide⟩

/-- C9 (amended): after a connection closes, every pool's resources are
released — for each mapped pool the view is unmapped before its fd is
closed, every nonnegative pool fd is closed, every mapped view is
unmapped — and `close()` touches only pool fds: ancillary fds that were
received but never consumed by `create_pool` are not closed by the proxy
and remain held (leaked) after the connection closes. -/
theorem c9_cleanup_amended (st : ClientState) (leaked : List Int) :
    (∀ pid e, (pid, e) ∈ st.shmPools → e.mm.isSome → 0 ≤ e.fd →
      ∃ l1 l2 l3, closeActions st =
        l1 ++ Cleanup.unmap pid :: (l2 ++ Cleanup.closeFd e.fd :: l3)) ∧
    (∀ pid e, (pid, e) ∈ st.shmPools → 0 ≤ e.fd →
      Cleanup.closeFd e.fd ∈ closeActions st) ∧
    (∀ pid e, (pid, e) ∈ st.shmPools → e.mm.isSome →
      Cleanup.unmap pid ∈ closeActions st) ∧
    (∀ f, Cleanup.closeFd f ∈ closeActions st →
      ∃ pid e, (pid, e) ∈ st.shmPools ∧ e.fd = f) ∧
    ((st.shmPools.map (fun pe => pe.2.fd)).filter (fun fd => 0 ≤ fd) = [] →
      fdsHeldAfterClose st leaked = st.shmPools.map (fun pe => pe.2.fd) ++ leaked) := by
  refine ⟨?_, ?_, ?_, ?_, ?_⟩
  · intro pid e hmem hmm hfd
    exact poolBlock_order st.shmPools [Cleanup.closeSock] pid e hmem hmm hfd
  · intro pid e hmem hfd
    unfold closeActions
    refine List.mem_append_left _ (List.mem_flatMap.mpr ⟨(pid, e), hmem, ?_⟩)
    simp [poolBlock, hfd]
  · intro pid e hmem hmm
    unfold closeActions
    refine List.mem_append_left _ (List.mem_flatMap.mpr ⟨(pid, e), hmem, ?_⟩)
    cases hm : e.mm with
    | none => rw [hm] at hmm; cases hmm
    | some m => simp [poolBlock, hm]
  · intro f hf
    unfold closeActions at hf
    rcases List.mem_append.mp hf with hf | hf
    · obtain ⟨pe, hpe, hin⟩ := List.mem_flatMap.mp hf
      unfold poolBlock at hin
      rcases List.mem_append.mp hin with hin | hin
      · exfalso
        cases hm : pe.2.mm <;> rw [hm] at hin <;> simp at hin
      · by_cases hfd : 0 ≤ pe.2.fd
        · rw [if_pos hfd] at hin
          simp at hin
          exact ⟨pe.1, pe.2, by simpa using hpe, hin.symm⟩
        · rw [if_neg hfd] at hin
          cases hin
    · simp at hf
  · intro hneg
    unfold fdsHeldAfterClose
    congr 1
    have : ∀ fd ∈ st.shmPools.map (fun pe => pe.2.fd), fd < 0 := by
      intro fd hfd
      by_contra hge
      have : fd ∈ (st.shmPools.map (fun pe => pe.2.fd)).filter (fun fd => 0 ≤ fd) :=
        List.mem_filter.mpr ⟨hfd, by simpa using hge⟩
      rw [hneg] at this
      cases this
    exact List.filter_eq_self.mpr (fun a ha => by simpa using this a ha)

theorem c9_witness :
    ((12, ({ fd := 5, mm := some [1, 2], size := 2 } : PoolEntry)) ∈
      ({ shmPools := [(12, { fd := 5, mm := some [1, 2], size := 2 })] } : ClientState).shmPools) ∧
    (∃ l1 l2 l3, closeActions { shmPools := [(12, { fd := 5, mm := some [1, 2], size := 2 })] } =
      l1 ++ Cleanup.unmap 12 :: (l2 ++ Cleanup.closeFd 5 :: l3)) :=
  ⟨by decide,
   (c9_cleanup_amended { shmPools := [(12, { fd := 5, mm := some [1, 2], size := 2 })] } []).1
     12 { fd := 5, mm := some [1, 2], size := 2 } (by decide) (by decide) (by decide)⟩

/-! ## Claim C6: serial monotonicity -/

theorem issueSerials_eq : ∀ (n : Nat) (st : ClientState),
    issueSerials st n = (List.range n).map (fun i => st.serial + 1 + i)
  | 0, st => rfl
  | n + 1, st => by
    have ih := issueSerials_eq n { st with serial := st.serial + 1 }
    simp only [issueSerials, nextSerial, ih, List.range_succ_eq_map, List.map_cons,
      List.map_map]
    refine List.cons_eq_cons.mpr ⟨by omega, ?_⟩
    apply List.map_congr_left
    intro i _
    simp only [Function.comp_apply]
    omega

theorem mapM_mem_inv {α β : Type} (f : α → Option β) :
    ∀ (l : List α) (out : List β), l.mapM f = some out → ∀ b ∈ out, ∃ a ∈ l, f a = some b
  | [], out, h, b, hb => by
    simp only [List.mapM_nil, Option.pure_def, Option.some.injEq] at h
    subst h
    cases hb
  | a :: l, out, h, b, hb => by
    rw [List.mapM_cons] at h
    simp only [Option.pure_def, Option.bind_eq_bind, Option.bind_eq_some,
      Option.some.injEq] at h
    obtain ⟨b0, hb0, bs, hbs, hout⟩ := h
    subst hout
    rcases List.mem_cons.mp hb with hbeq | hbmem
    · exact ⟨a, by simp, hbeq ▸ hb0⟩
    · obtain ⟨a2, ha2, hfa2⟩ := mapM_mem_inv f l bs hbs b hbmem
      exact ⟨a2, by simp [ha2], hfa2⟩

theorem getLE32_at8 (a b : Nat) (l : List Nat) :
    getLE32 (le32 a ++ (le32 b ++ l)) 8 = getLE32 l 0 := by
  have h := getLE32_append (le32 a ++ le32 b) l 0
  rw [show (le32 a ++ le32 b).length = 8 from by simp [le32]] at h
  rw [← h, List.append_assoc]

/-- C6 counterexample: a connection with two `wl_keyboard` objects (ids 10
and 11) receives one INPT key broadcast.  `broadcast_input` takes a single
serial for the whole broadcast, so both emitted `wl_keyboard.key` events
(opcode 3) carry serial 1 — two events of the same type with duplicate
serials, contradicting the claim's "no duplicates among events of the same
type". -/
theorem c6_counterexample :
    ((broadcastInput {}
        { objects := [(1, (iWlDisplay, 1)), (10, (iWlKeyboard, 1)), (11, (iWlKeyboard, 1))] }
        (asciiBytes ("INPT") ++ (le32 1 ++ (le32 1 ++ (le32 30 ++ le32 0))))).2).map
      (fun m => (getLE32 m 0, getLE32 m 4 % 65536, getLE32 m 8)) =
      [(10, 3, 1), (11, 3, 1)] := by
  decide
/-- Helper: every message produced by one broadcast's key/button encoding
carries the broadcast's single serial in its first payload word (byte
offset 8). -/
theorem broadcastStamp (ser now p2 p1 : Nat) (ks : List Nat) (msgs : List (List Nat))
    (hm : ks.mapM (fun k => encodeMessage k 3
      [.auint ser, .auint now, .auint p2, .auint p1]) = some msgs) :
    ∀ m ∈ msgs, getLE32 m 8 = ser % 4294967296 := by
  intro m hmem
  obtain ⟨k, _, hk⟩ := mapM_mem_inv _ _ msgs hm m hmem
  unfold encodeMessage at hk
  cases hpm : [WireArg.auint ser, .auint now, .auint p2, .auint p1].mapM encodeArg with
  | none => rw [hpm] at hk; cases hk
  | some pieces =>
    rw [hpm] at hk
    dsimp only at hk
    have hpieces : pieces = [le32 (ser % 4294967296), le32 (now % 4294967296),
        le32 (p2 % 4294967296), le32 (p1 % 4294967296)] := by
      simp only [List.mapM_cons, List.mapM_nil, encodeArg, Option.pure_def,
        Option.bind_eq_bind, Option.some_bind, Option.some.injEq] at hpm
      exact hpm.symm
    subst hpieces
    split at hk
    · have hmeq := (Option.some.injEq _ _).mp hk
      subst hmeq
      rw [List.append_assoc, getLE32_at8]
      simp only [List.flatten_cons, List.flatten_nil, List.append_nil,
        List.append_assoc]
      rw [getLE32_le32]
      omega
    · cases hk

/-- Helper: every INPT broadcast — whatever its type code, including motion
and unknown codes — consumes exactly one serial: the resulting state is the
input state with the serial bumped by one. -/
theorem broadcastInput_serial (env : Env) (st : ClientState) (data : List Nat)
    (hlen : 20 ≤ data.length) (hmagic : data.take 4 = asciiBytes ("INPT")) :
    (broadcastInput env st data).1 = { st with serial := st.serial + 1 } := by
  unfold broadcastInput
  rw [if_neg (by omega), if_neg (by simp [hmagic])]
  simp only [nextSerial]
  by_cases h1 : getLE32 data 4 = 1
  · rw [if_pos h1]
    split <;> rfl
  · rw [if_neg h1]
    by_cases h2 : getLE32 data 4 = 2
    · rw [if_pos h2]
      split <;> rfl
    · rw [if_neg h2]
      by_cases h3 : getLE32 data 4 = 3
      · rw [if_pos h3]
        split <;> rfl
      · rw [if_neg h3]

/-- C6 (amended): the serial counter issues strictly increasing values
within a connection; every INPT broadcast (key, motion, button, or unknown
type code) consumes exactly one serial; and for key (type 1) and button
(type 3) broadcasts that single value is stamped on every event emitted —
so serials are non-decreasing across events, but all same-type events of a
single broadcast share one serial (duplicates arise when a connection has
more than one keyboard or pointer object). -/
theorem c6_serial_amended :
    (∀ (st : ClientState) (n : Nat), (issueSerials st n).Pairwise (· < ·)) ∧
    (∀ (env : Env) (st : ClientState) (data : List Nat),
      20 ≤ data.length → data.take 4 = asciiBytes ("INPT") →
      (broadcastInput env st data).1.serial = st.serial + 1 ∧
      ((getLE32 data 4 = 1 ∨ getLE32 data 4 = 3) →
        ∀ m ∈ (broadcastInput env st data).2, getLE32 m 8 = (st.serial + 1) % 4294967296)) := by
  constructor
  · intro st n
    rw [issueSerials_eq, List.pairwise_map]
    have hr : (List.range n).Pairwise (· < ·) := List.pairwise_lt_range n
    exact hr.imp (fun h => by omega)
  · intro env st data hlen hmagic
    constructor
    · rw [broadcastInput_serial env st data hlen hmagic]
    · intro htc m hmem
      unfold broadcastInput at hmem
      rw [if_neg (by omega), if_neg (by simp [hmagic])] at hmem
      simp only [nextSerial] at hmem
      rcases htc with htc | htc
      · rw [htc] at hmem
        norm_num at hmem
        split at hmem
        next msgs heq =>
          simp only at hmem
          exact broadcastStamp _ _ _ _ _ msgs heq m hmem
        next heq =>
          simp at hmem
      · rw [htc] at hmem
        norm_num at hmem
        split at hmem
        next msgs heq =>
          simp only at hmem
          exact broadcastStamp _ _ _ _ _ msgs heq m hmem
        next heq =>
          simp at hmem

theorem c6_witness :
    (issueSerials initState 3).Pairwise (· < ·) ∧
    (broadcastInput {}
      { objects := [(1, (iWlDisplay, 1)), (10, (iWlKeyboard, 1)), (11, (iWlKeyboard, 1))] }
      (asciiBytes ("INPT") ++ (le32 1 ++ (le32 2 ++ (le32 40 ++ le32 0))))).1.serial = 0 + 1 ∧
    (∀ m ∈ (broadcastInput {}
      { objects := [(1, (iWlDisplay, 1)), (10, (iWlKeyboard, 1)), (11, (iWlKeyboard, 1))] }
      (asciiBytes ("INPT") ++ (le32 1 ++ (le32 2 ++ (le32 40 ++ le32 0))))).2,
      getLE32 m 8 = (0 + 1) % 4294967296) ∧
    (∀ m ∈ (broadcastInput {}
      { objects := [(1, (iWlDisplay, 1)), (20, (iWlPointer, 1)), (21, (iWlPointer, 1))] }
      (asciiBytes ("INPT") ++ (le32 3 ++ (le32 1 ++ (le32 272 ++ le32 0))))).2,
      getLE32 m 8 = (0 + 1) % 4294967296) :=
  ⟨c6_serial_amended.1 initState 3,
   (c6_serial_amended.2 {}
     { objects := [(1, (iWlDisplay, 1)), (10, (iWlKeyboard, 1)), (11, (iWlKeyboard, 1))] }
     (asciiBytes ("INPT") ++ (le32 1 ++ (le32 2 ++ (le32 40 ++ le32 0))))
     (by decide) (by decide)).1,
   (c6_serial_amended.2 {}
     { objects := [(1, (iWlDisplay, 1)), (10, (iWlKeyboard, 1)), (11, (iWlKeyboard, 1))] }
     (asciiBytes ("INPT") ++ (le32 1 ++ (le32 2 ++ (le32 40 ++ le32 0))))
     (by decide) (by decide)).2 (Or.inl (by decide)),
   (c6_serial_amended.2 {}
     { objects := [(1, (iWlDisplay, 1)), (20, (iWlPointer, 1)), (21, (iWlPointer, 1))] }
     (asciiBytes ("INPT") ++ (le32 3 ++ (le32 1 ++ (le32 272 ++ le32 0))))
     (by decide) (by decide)).2 (Or.inr (by decide))⟩

/-! ## Claim C5: get_registry and the advertised globals -/

theorem mapM_encode_globals : ∀ (gl : List (Nat × List Nat × Nat)) (rid : Nat),
    rid < 4294967296 →
    (∀ g ∈ gl, stripNulls g.2.1 = g.2.1 ∧ g.1 < 4294967296 ∧ g.2.2 < 4294967296 ∧
      g.2.1.length + 1 < 4294967296 ∧
      8 + (4 + (4 + (g.2.1.length + 1) + pad4 (g.2.1.length + 1)) + 4) < 65536) →
    ∃ msgs, gl.mapM (fun g => encodeMessage rid 0 [.auint g.1, .astr g.2.1, .auint g.2.2]) =
        some msgs ∧
      msgs.length = gl.length ∧
      msgs.map (fun m => decodeMessage [.uint, .str, .uint] m) =
        gl.map (fun g => some (rid, 0, [.auint g.1, .astr g.2.1, .auint g.2.2]))
  | [], rid, _, _ => ⟨[], rfl, rfl, by simp⟩
  | g :: gl, rid, hrid, hall => by
    obtain ⟨hstrip, hn, hv, hslen, hsize⟩ := hall g (by simp)
    have hpm : [WireArg.auint g.1, .astr g.2.1, .auint g.2.2].mapM encodeArg =
        some [le32 (g.1 % 4294967296),
          le32 (g.2.1.length + 1) ++ g.2.1 ++ [0] ++ List.replicate (pad4 (g.2.1.length + 1)) 0,
          le32 (g.2.2 % 4294967296)] := by
      simp only [List.mapM_cons, List.mapM_nil, encodeArg, if_pos hslen, Option.pure_def,
        Option.bind_eq_bind, Option.some_bind]
    have hfl : ([le32 (g.1 % 4294967296),
        le32 (g.2.1.length + 1) ++ g.2.1 ++ [0] ++ List.replicate (pad4 (g.2.1.length + 1)) 0,
        le32 (g.2.2 % 4294967296)] : List (List Nat)).flatten.length =
        4 + (4 + (g.2.1.length + 1) + pad4 (g.2.1.length + 1)) + 4 := by
      simp [le32, List.length_append]
      omega
    have henc := encodeMessage_some rid 0 [.auint g.1, .astr g.2.1, .auint g.2.2] _ hpm hrid
      (by rw [hfl]; omega)
    have hkinds : [WireArg.auint g.1, .astr g.2.1, .auint g.2.2].mapM argKind =
        some [.uint, .str, .uint] := by
      simp only [List.mapM_cons, List.mapM_nil, argKind, Option.pure_def,
        Option.bind_eq_bind, Option.some_bind]
    have hdec := encode_decode rid 0 [.auint g.1, .astr g.2.1, .auint g.2.2]
      [.uint, .str, .uint] _ hrid (by omega) hkinds
      (by
        intro a ha
        simp only [List.mem_cons, List.not_mem_nil, or_false] at ha
        rcases ha with h | h | h <;> subst h
        · exact hn
        · exact hstrip
        · exact hv)
      henc
    obtain ⟨msgs, hm, hlen, hmap⟩ := mapM_encode_globals gl rid hrid
      (fun g2 hg2 => hall g2 (by simp [hg2]))
    obtain ⟨mh, hmh⟩ : ∃ mh, encodeMessage rid 0 [.auint g.1, .astr g.2.1, .auint g.2.2] =
        some mh := ⟨_, henc⟩
    have hmheq := (Option.some.injEq _ _).mp ((hmh.symm).trans henc)
    have hdec2 : decodeMessage [.uint, .str, .uint] mh =
        some (rid, 0, [.auint g.1, .astr g.2.1, .auint g.2.2]) := by
      rw [hmheq]
      exact hdec
    refine ⟨mh :: msgs, ?_, by simp [hlen], ?_⟩
    · rw [List.mapM_cons, hmh, hm]
      rfl
    · simp only [List.map_cons, hmap, hdec2]

/-- C5: processing `wl_display.get_registry(new_id)` registers `new_id` as
`wl_registry` v1 and emits exactly seven messages on that id, all with
opcode 0, whose argument tuples are exactly the seven entries of `GLOBALS`
in order. -/
theorem c5_registry_globals (env : Env) (st : ClientState) (regId : Nat) (rest : List Nat)
    (h : regId < 4294967296) :
    ∃ msgs, handleDisplay env st 1 (le32 regId ++ rest) =
        some { st := { st with objects := dictSet st.objects regId (iWlRegistry, 1) },
               sent := [], res := msgs, host := [] } ∧
      msgs.length = 7 ∧
      msgs.map (fun m => decodeMessage [.uint, .str, .uint] m) =
        GLOBALS.map (fun g => some (regId, 0, [.auint g.1, .astr g.2.1, .auint g.2.2])) := by
  obtain ⟨msgs, hm, hlen, hmap⟩ := mapM_encode_globals GLOBALS regId h (by decide)
  refine ⟨msgs, ?_, by rw [hlen]; rfl, hmap⟩
  unfold handleDisplay
  norm_num
  rw [readUint_le32]
  simp only [Option.pure_def, Option.bind_eq_bind, Option.some_bind, Nat.mod_eq_of_lt h]
  have hm2 : List.mapM.loop
      (fun g => encodeMessage regId 0 [WireArg.auint g.1, WireArg.astr g.2.1, WireArg.auint g.2.2])
      GLOBALS [] = some msgs := hm
  rw [hm2]
  simp only [Option.some_bind]

theorem c5_witness :
    2 < 4294967296 ∧
    (∃ msgs, handleDisplay {} initState 1 (le32 2 ++ []) =
        some { st := { initState with objects := dictSet initState.objects 2 (iWlRegistry, 1) },
               sent := [], res := msgs, host := [] } ∧
      msgs.length = 7 ∧
      msgs.map (fun m => decodeMessage [.uint, .str, .uint] m) =
        GLOBALS.map (fun g => some (2, 0, [.auint g.1, .astr g.2.1, .auint g.2.2]))) :=
  ⟨by decide, c5_registry_globals {} initState 2 [] (by decide)⟩

/-! ## Claim C2: PIXL before release, exactly one release per commit -/

theorem getLE32_le32_nil (n : Nat) : getLE32 (le32 n) 0 = n % 4294967296 := by
  have h := getLE32_le32 n []
  rwa [List.append_nil] at h

theorem dispatch_surface (env : Env) (st : ClientState) (oid opcode : Nat) (pay : List Nat)
    (fds : List Int) :
    dispatch env st oid opcode pay iWlSurface fds = some (handleSurface env st oid opcode pay, fds) := by
  unfold dispatch
  rw [if_neg (by decide), if_neg (by decide), if_neg (by decide), if_neg (by decide),
    if_neg (by decide), if_neg (by decide), if_pos rfl]

theorem handleLoop_nil (env : Env) : ∀ (fuel : Nat) (st : ClientState) (fds : List Int),
    handleLoop env fuel st [] fds = some (st, [], [], fds)
  | 0, st, fds => rfl
  | fuel + 1, st, fds => by
    simp [handleLoop]

theorem encodeRelease (b : Nat) (hb : b < 4294967296) :
    encodeMessage b 0 [] = some (le32 b ++ le32 524288) := by
  unfold encodeMessage
  rw [show List.mapM encodeArg [] = some [] from rfl]
  dsimp only
  rw [if_pos ⟨hb, by simp⟩]
  norm_num

theorem handleMessage_eq (env : Env) (st : ClientState) (data : List Nat) (fds : List Int) :
    handleMessage env st data fds =
      match handleLoop env (data.length + 1) st data fds with
      | none => none
      | some (st2, evs, resps, fds2) =>
        some (st2, evs ++ resps.map IOEvent.toClient, fds2) := rfl

theorem handleLoop_succ (env : Env) (fuel : Nat) (st : ClientState) (data : List Nat)
    (fds : List Int) :
    handleLoop env (fuel + 1) st data fds =
      if data.length < 8 then some (st, [], [], fds)
      else if getLE32 data 4 / 65536 < 8 ∨ data.length < getLE32 data 4 / 65536 then
        some (st, [], [], fds)
      else
        match List.lookup (getLE32 data 0) st.objects with
        | none => handleLoop env fuel st (data.drop (getLE32 data 4 / 65536)) fds
        | some (iface, _) =>
          match dispatch env st (getLE32 data 0) (getLE32 data 4 % 65536)
              ((data.take (getLE32 data 4 / 65536)).drop 8) iface fds with
          | none => none
          | some (r, fds2) =>
            match handleLoop env fuel r.st (data.drop (getLE32 data 4 / 65536)) fds2 with
            | none => none
            | some (st3, evs, resps, fds3) =>
              some (st3, (r.sent.map IOEvent.toClient ++ hostEvents r.host) ++ evs,
                r.res ++ resps, fds3) := rfl

/-- C2: a `wl_surface.commit` (wire bytes: object id, then
`(8 << 16) | 6 = 524294`) whose surface carries a live attached buffer
produces, through `handle_message`, exactly this event sequence: the bytes
`send_pixl` wrote to the host channel (when any), followed — after the
dispatch loop, when responses are flushed — by exactly one
`wl_buffer.release` event to the client.  So the PIXL record is fully
written to the host before the release bytes reach the client, the release
is emitted exactly once (it is the only client-bound event of the commit
and the last event overall), it decodes as opcode 0 on the buffer id, and
the state is unchanged. -/
theorem c2_release_after_pixl (env : Env) (st : ClientState) (oid b ver : Nat)
    (meta : BufferMeta) (fds : List Int)
    (hobj : List.lookup oid st.objects = some (iWlSurface, ver))
    (hsurf : List.lookup oid st.surfaces = some (some b))
    (hb0 : b ≠ 0)
    (hbuf : List.lookup b st.buffers = some meta)
    (hoid : oid < 4294967296) (hb32 : b < 4294967296) :
    handleMessage env st (le32 oid ++ le32 524294) fds =
      some (st, hostEvents (sendPixl oid meta st.shmPools) ++
        [IOEvent.toClient (le32 b ++ le32 524288)], fds) ∧
    (hostEvents (sendPixl oid meta st.shmPools) ++
        [IOEvent.toClient (le32 b ++ le32 524288)]).filter
      (fun ev => match ev with | IOEvent.toClient _ => true | IOEvent.toHost _ => false) =
      [IOEvent.toClient (le32 b ++ le32 524288)] ∧
    (hostEvents (sendPixl oid meta st.shmPools) ++
        [IOEvent.toClient (le32 b ++ le32 524288)]).getLast? =
      some (IOEvent.toClient (le32 b ++ le32 524288)) ∧
    decodeMessage [] (le32 b ++ le32 524288) = some (b, 0, []) := by
  have hrel := encodeRelease b hb32
  refine ⟨?_, ?_, ?_, ?_⟩
  · have hdl : (le32 oid ++ le32 524294).length = 8 := by simp [le32]
    have hg4 : getLE32 (le32 oid ++ le32 524294) 4 = 524294 := by
      rw [getLE32_at4, getLE32_le32_nil]
    have hg0 : getLE32 (le32 oid ++ le32 524294) 0 = oid := by
      rw [getLE32_le32, Nat.mod_eq_of_lt hoid]
    have hpay : ((le32 oid ++ le32 524294).take (524294 / 65536)).drop 8 = [] := by
      simp [le32]
    have hrest : (le32 oid ++ le32 524294).drop (524294 / 65536) = [] := by
      simp [le32]
    rw [handleMessage_eq, hdl, handleLoop_succ, hg4, hg0, hpay, hrest]
    rw [if_neg (by simp [le32]), if_neg (by norm_num [le32]), hobj]
    dsimp only
    rw [dispatch_surface]
    dsimp only
    have hsres : handleSurface env st oid (524294 % 65536) [] =
        { st := st, sent := [], res := [le32 b ++ le32 524288],
          host := sendPixl oid meta st.shmPools } := by
      rw [show (524294 : Nat) % 65536 = 6 from by norm_num]
      simp [handleSurface, hsurf, hb0, hbuf, hrel]
    rw [hsres, handleLoop_nil]
    dsimp only
    simp
  · by_cases h : (sendPixl oid meta st.shmPools).isEmpty <;>
      simp [hostEvents, h, List.filter_append]
  · by_cases h : (sendPixl oid meta st.shmPools).isEmpty <;>
      simp [hostEvents, h]
  · unfold decodeMessage decodeHeader
    rw [if_neg (by simp [le32])]
    dsimp only
    rw [getLE32_le32, Nat.mod_eq_of_lt hb32, getLE32_at4, getLE32_le32_nil]
    rw [show (524288 : Nat) % 4294967296 = 524288 from by norm_num,
        show (524288 : Nat) / 65536 = 8 from by norm_num,
        show (524288 : Nat) % 65536 = 0 from by norm_num]
    rw [if_neg (by simp [le32])]
    rw [show ((le32 b ++ le32 524288).take 8).drop 8 = [] from by simp [le32]]
    rfl

def c2WitnessState : ClientState :=
  { objects := [(1, (iWlDisplay, 1)), (6, (iWlSurface, 4))]
    surfaces := [(6, some 9)]
    buffers := [(9, { pool := 8, off := 0, w := 1, h := 1, stride := 4, fmt := 1 })]
    shmPools := [(8, { fd := 5, mm := some [1, 2, 3, 4], size := 4 })] }

def c2WitnessBuf : BufferMeta := { pool := 8, off := 0, w := 1, h := 1, stride := 4, fmt := 1 }

theorem c2_witness :
    (List.lookup 6 c2WitnessState.surfaces = some (some 9)) ∧
    (handleMessage {} c2WitnessState (le32 6 ++ le32 524294) [] =
      some (c2WitnessState, hostEvents (sendPixl 6 c2WitnessBuf c2WitnessState.shmPools) ++
        [IOEvent.toClient (le32 9 ++ le32 524288)], []) ∧
      (hostEvents (sendPixl 6 c2WitnessBuf c2WitnessState.shmPools) ++
        [IOEvent.toClient (le32 9 ++ le32 524288)]).filter
        (fun ev => match ev with | IOEvent.toClient _ => true | IOEvent.toHost _ => false) =
        [IOEvent.toClient (le32 9 ++ le32 524288)] ∧
      (hostEvents (sendPixl 6 c2WitnessBuf c2WitnessState.shmPools) ++
        [IOEvent.toClient (le32 9 ++ le32 524288)]).getLast? =
        some (IOEvent.toClient (le32 9 ++ le32 524288)) ∧
      decodeMessage [] (le32 9 ++ le32 524288) = some (9, 0, [])) :=
  ⟨by decide,
   c2_release_after_pixl {} c2WitnessState 6 9 4 c2WitnessBuf []
     (by decide) (by decide) (by decide) (by decide) (by decide) (by decide)⟩

/-! ## Claim C1: the frame extractor -/

theorem takeWhile_all {α : Type} {p : α → Bool} : ∀ {l : List α},
    (∀ x ∈ l, p x = true) → l.takeWhile p = l
  | [], _ => rfl
  | a :: l, h => by
    rw [List.takeWhile_cons, if_pos (h a (by simp))]
    rw [takeWhile_all (fun x hx => h x (by simp [hx]))]

theorem takeWhile_append_one {α : Type} {p : α → Bool} {a : α} (ha : p a = false) :
    ∀ (l : List α), (l ++ [a]).takeWhile p = l.takeWhile p
  | [] => by simp [List.takeWhile_cons, ha]
  | b :: l => by
    rw [List.cons_append, List.takeWhile_cons, List.takeWhile_cons]
    cases hb : p b
    · rfl
    · rw [if_pos rfl, if_pos rfl, takeWhile_append_one ha l]

theorem takeWhile_eq_filter_of_antitone {p : Nat → Bool}
    (hp : ∀ i j, i ≤ j → p j = true → p i = true) :
    ∀ n, (List.range n).takeWhile p = (List.range n).filter p
  | 0 => rfl
  | n + 1 => by
    rw [List.range_succ]
    cases hn : p n
    · rw [takeWhile_append_one hn, List.filter_append,
        takeWhile_eq_filter_of_antitone hp n]
      simp [hn]
    · have hall : ∀ x ∈ List.range (n + 1), p x = true := by
        intro x hx
        exact hp x n (by simp at hx; omega) hn
      rw [← List.range_succ] at *
      rw [takeWhile_all hall, List.filter_eq_self.mpr hall]

theorem takeWhile_eq_take {α : Type} {p : α → Bool} : ∀ (l : List α),
    l.takeWhile p = l.take (l.takeWhile p).length
  | [] => rfl
  | a :: l => by
    rw [List.takeWhile_cons]
    cases ha : p a
    · rfl
    · rw [if_pos rfl, List.length_cons, List.take_succ_cons, ← takeWhile_eq_take l]

theorem flatten_const_len {f : Nat → List Nat} {c : Nat} : ∀ (l : List Nat),
    (∀ x ∈ l, (f x).length = c) → ((l.map f).flatten).length = l.length * c
  | [], _ => by simp
  | a :: l, h => by
    rw [List.map_cons, List.flatten_cons, List.length_append, h a (by simp),
      flatten_const_len l (fun x hx => h x (by simp [hx])), List.length_cons]
    ring

theorem rowSlice_len (mem : List Nat) (offY row : Int) (h0 : 0 ≤ offY) (hr : 0 ≤ row)
    (hle : offY + row ≤ (mem.length : Int)) :
    (rowSlice mem offY row).length = row.toNat := by
  unfold rowSlice
  rw [List.length_take, List.length_drop]
  omega

/-- C1 counterexample: buffer (offset 0, w=1, h=1, stride=8, format 0) on a
mapped pool of 4 bytes.  Exactly one row fits (`0 + 0*8 + 4 ≤ 4`), so the
claim requires a PIXL record with one 4-byte row and payload-length field 4
— but `send_pixl` returns at its guard `off + stride*h > sz` (8 > 4) and
emits nothing at all. -/
theorem c1_counterexample :
    sendPixl 6 { pool := 1, off := 0, w := 1, h := 1, stride := 8, fmt := 0 }
      [(1, { fd := 5, mm := some [170, 170, 170, 170], size := 4 })] = [] ∧
    specRowCount { pool := 1, off := 0, w := 1, h := 1, stride := 8, fmt := 0 } 4 = 1 ∧
    specPixlOutput 6 { pool := 1, off := 0, w := 1, h := 1, stride := 8, fmt := 0 }
      [170, 170, 170, 170] 4 ≠ [] := by
  refine ⟨by decide, by decide, by decide⟩

/-- C1 (amended): for a commit whose buffer refers to a mapped pool and
additionally satisfies the extractor's guard `offset + stride*h ≤ pool_size`
(otherwise nothing is emitted), with nonnegative offset and stride and the
header fields in u32 range, the frame extractor emits exactly the record
the claim describes: a PIXL header whose payload-length field is `N*row`
(`row = w*4`, `N` the number of rows `y < h` with
`offset + y*stride + row ≤ pool_size`), followed by the first `N` rows, row
`y` taken from the pool mapping at `offset + y*stride`; the payload is
`N*row` bytes long.  (With `stride ≥ 0` the row predicate is downward
closed, so the code's break-at-first-misfit equals the claim's count.) -/
theorem c1_frame_extractor_amended (sid : Nat) (buf : BufferMeta)
    (pools : List (Nat × PoolEntry)) (e : PoolEntry) (mem : List Nat)
    (hp : List.lookup buf.pool pools = some e) (hm : e.mm = some mem)
    (hlen : mem.length = e.size)
    (hoff : 0 ≤ buf.off) (hstride : 0 ≤ buf.stride) (hw : 0 ≤ buf.w) (hh : 0 ≤ buf.h)
    (hguard : buf.off + buf.stride * buf.h ≤ (e.size : Int))
    (hsid : sid < 4294967296) (hw32 : buf.w < 4294967296) (hh32 : buf.h < 4294967296)
    (hfmt : buf.fmt < 4294967296)
    (htot : (specRowCount buf e.size : Int) * (buf.w * 4) < 4294967296) :
    sendPixl sid buf pools = specPixlOutput sid buf mem e.size ∧
    (specPixlOutput sid buf mem e.size).length =
      24 + specRowCount buf e.size * (buf.w * 4).toNat := by
  have hrow : (0 : Int) ≤ buf.w * 4 := by positivity
  have habt : ∀ (i j : Nat), i ≤ j →
      (decide (buf.off + (j : Int) * buf.stride + buf.w * 4 ≤ (e.size : Int)) = true) →
      (decide (buf.off + (i : Int) * buf.stride + buf.w * 4 ≤ (e.size : Int)) = true) := by
    intro i j hij hj
    rw [decide_eq_true_iff] at *
    have hmul : (i : Int) * buf.stride ≤ (j : Int) * buf.stride := by
      apply mul_le_mul_of_nonneg_right _ hstride
      exact_mod_cast hij
    omega
  have hNle : specRowCount buf e.size ≤ buf.h.toNat := by
    unfold specRowCount
    calc ((List.range buf.h.toNat).filter _).length ≤ (List.range buf.h.toNat).length :=
          List.length_filter_le _ _
      _ = buf.h.toNat := List.length_range _
  have hfit : (List.range buf.h.toNat).filter
      (fun (y : Nat) => decide (buf.off + (y : Int) * buf.stride + buf.w * 4 ≤ (e.size : Int))) =
      List.range (specRowCount buf e.size) := by
    rw [← takeWhile_eq_filter_of_antitone habt]
    conv_lhs => rw [takeWhile_eq_take]
    rw [List.take_range]
    congr 1
    rw [takeWhile_eq_filter_of_antitone habt]
    have hN : ((List.range buf.h.toNat).filter
        (fun (y : Nat) => decide (buf.off + (y : Int) * buf.stride + buf.w * 4 ≤
          (e.size : Int)))).length = specRowCount buf e.size := rfl
    rw [hN]
    omega
  constructor
  · unfold sendPixl
    rw [hp]
    dsimp only
    rw [hm]
    dsimp only
    rw [if_neg (by omega)]
    rw [takeWhile_eq_filter_of_antitone habt]
    rw [hfit, List.length_range]
    have htn : ((specRowCount buf e.size : Nat) : Int) * (buf.w * 4) =
        (((specRowCount buf e.size * (buf.w * 4).toNat : Nat)) : Int) := by
      have h1 : buf.w * 4 = (((buf.w * 4).toNat : Nat) : Int) := (Int.toNat_of_nonneg hrow).symm
      conv_lhs => rw [h1]
      push_cast
      ring
    rw [show pixlHeader sid buf.w buf.h buf.fmt ((specRowCount buf e.size : Int) * (buf.w * 4)) =
        some (asciiBytes ("PIXL") ++ le32 sid ++ le32 buf.w.toNat ++ le32 buf.h.toNat ++
          le32 buf.fmt ++ le32 (specRowCount buf e.size * (buf.w * 4).toNat)) from by
      unfold pixlHeader
      rw [if_pos ⟨hsid, hw, hw32, hh, hh32, hfmt, by positivity, htot⟩]
      rw [htn, Int.toNat_natCast]]
    dsimp only
    rw [takeWhile_all (by
      intro x hx
      rw [decide_eq_true_iff]
      positivity)]
    rfl
  · unfold specPixlOutput
    dsimp only
    simp only [List.length_append]
    rw [flatten_const_len (List.range (specRowCount buf e.size)) (by
      intro y hy
      apply rowSlice_len
      · positivity
      · exact hrow
      · rw [← hfit] at hy
        have hpred := (List.mem_filter.mp hy).2
        rw [decide_eq_true_iff] at hpred
        rw [hlen]
        exact hpred)]
    simp [asciiBytes, le32, List.length_range]

def c1WitnessBuf : BufferMeta := { pool := 1, off := 0, w := 1, h := 2, stride := 4, fmt := 1 }

def c1WitnessPool : PoolEntry := { fd := 5, mm := some [1, 2, 3, 4, 5, 6, 7, 8], size := 8 }

theorem c1_witness :
    (List.lookup c1WitnessBuf.pool [(1, c1WitnessPool)] = some c1WitnessPool ∧
      c1WitnessBuf.off + c1WitnessBuf.stride * c1WitnessBuf.h ≤ (c1WitnessPool.size : Int)) ∧
    (sendPixl 6 c1WitnessBuf [(1, c1WitnessPool)] =
      specPixlOutput 6 c1WitnessBuf [1, 2, 3, 4, 5, 6, 7, 8] c1WitnessPool.size ∧
    (specPixlOutput 6 c1WitnessBuf [1, 2, 3, 4, 5, 6, 7, 8] c1WitnessPool.size).length =
      24 + specRowCount c1WitnessBuf c1WitnessPool.size * (c1WitnessBuf.w * 4).toNat) :=
  ⟨⟨by decide, by decide⟩,
   c1_frame_extractor_amended 6 c1WitnessBuf [(1, c1WitnessPool)] c1WitnessPool
     [1, 2, 3, 4, 5, 6, 7, 8] (by decide) (by decide) (by decide) (by decide) (by decide)
     (by decide) (by decide) (by decide) (by decide) (by decide) (by decide) (by decide)
     (by decide)⟩
